import Mathlib

/-!
Verification of the django-mailer core (src/mailer/models.py) against its
natural-language specification.

The Python module is shallowly embedded: Python strings become lists of
codepoints (`Str`), bytes become lists of naturals, exceptions become an
`Except PyExc` result, Django querysets over a table become Lean lists of
records, and Django set-based `update`/`delete` become pure functions from a
list of rows to (row count, new list of rows).

The two external serialization libraries the module uses (`pickle` and
`base64`) are modelled concretely: `pickle` as an injective, self-delimiting
byte serialization of the `EmailMessage` structure (the module treats the wire
format as opaque; what matters is that dumps/loads round-trip, that loads of
the empty byte string raises EOFError — CPython: "Ran out of input" — and that
loads of garbage raises UnpicklingError), and `base64` with the real RFC 4648
alphabet, 4-character groups, `=` padding, the 76-character line discipline of
`base64.encodebytes`, and the decoder of `base64.decodebytes`, which discards
characters outside the alphabet and raises `binascii.Error` when the number of
remaining characters is not a multiple of four.
-/

namespace Mailer

/-- A Python `str`, modelled as its list of codepoints. -/
abbrev Str := List Nat

/-- Python exception classes that the embedded code can raise or catch. -/
inductive PyExc where
  | typeError
  | unpicklingError
  | binasciiError
  | attributeError
  | eofError
  | unicodeEncodeError
deriving DecidableEq

deriving instance DecidableEq for Except

/-- ASCII lowercasing of one codepoint, modelling Python `str.lower` (and the
SQL `iexact` comparison) on the ASCII range in which email header names and
addresses live. -/
def lowerCh (c : Nat) : Nat := if 65 ≤ c ∧ c ≤ 90 then c + 32 else c

/-- ASCII lowercasing of a string, modelling Python `str.lower`. -/
def lowerStr (s : Str) : Str := s.map lowerCh

/-- The Django `EmailMessage` object as constructed and serialized by the
module: subject, body, sender, recipient lists, attachments (opaque) and the
`extra_headers` mapping in insertion order. -/
structure EmailMessage where
  subject : Str
  body : Str
  from_email : Str
  «to» : List Str
  bcc : List Str
  attachments : List Str
  extra_headers : List (Str × Str)
deriving DecidableEq

/-! ## Pickle model

An injective, self-delimiting byte serialization of `EmailMessage`.
Naturals are serialized as little-endian base-255 digits terminated by the
byte 255; strings and lists are length-prefixed. A leading protocol byte
(128) and a trailing stop byte (46) frame the record, mirroring pickle frames
being nonempty and terminated. The digit computation takes explicit fuel so
that every definition is structurally recursive and kernel-reducible. -/

/-- Little-endian base-255 digits of `n`, computed with fuel (`fuel ≥ n`
suffices). `natDigitsF fuel 0 = []`. -/
def natDigitsF : Nat → Nat → List Nat
  | 0, _ => []
  | fuel + 1, n => if n = 0 then [] else n % 255 :: natDigitsF fuel (n / 255)

/-- Serialize a natural: its base-255 digits followed by the terminator 255. -/
def encodeNat (n : Nat) : List Nat := natDigitsF n n ++ [255]

/-- Value of a little-endian base-255 digit list. -/
def digitsVal (ds : List Nat) : Nat := ds.foldr (fun d acc => d + 255 * acc) 0

/-- Parse one serialized natural off the front of a byte list, returning it
and the unconsumed tail. -/
def parseNat (bs : List Nat) : Option (Nat × List Nat) :=
  match bs.dropWhile (fun b => decide (b < 255)) with
  | 255 :: rest => some (digitsVal (bs.takeWhile (fun b => decide (b < 255))), rest)
  | _ => none

/-- Serialize a string: its length, then each codepoint. -/
def encStr (s : Str) : List Nat := encodeNat s.length ++ (s.map encodeNat).flatten

/-- Parse `k` serialized naturals. -/
def parseNats : Nat → List Nat → Option (List Nat × List Nat)
  | 0, bs => some ([], bs)
  | k + 1, bs =>
    match parseNat bs with
    | some (v, r) =>
      match parseNats k r with
      | some (vs, r2) => some (v :: vs, r2)
      | none => none
    | none => none

/-- Parse one serialized string. -/
def parseStr (bs : List Nat) : Option (Str × List Nat) :=
  match parseNat bs with
  | some (n, r) => parseNats n r
  | none => none

/-- Serialize a list of strings: its length, then each string. -/
def encStrList (l : List Str) : List Nat := encodeNat l.length ++ (l.map encStr).flatten

/-- Parse `k` serialized strings. -/
def parseStrs : Nat → List Nat → Option (List Str × List Nat)
  | 0, bs => some ([], bs)
  | k + 1, bs =>
    match parseStr bs with
    | some (v, r) =>
      match parseStrs k r with
      | some (vs, r2) => some (v :: vs, r2)
      | none => none
    | none => none

/-- Parse one serialized list of strings. -/
def parseStrList (bs : List Nat) : Option (List Str × List Nat) :=
  match parseNat bs with
  | some (n, r) => parseStrs n r
  | none => none

/-- Serialize one header pair. -/
def encHeader (kv : Str × Str) : List Nat := encStr kv.1 ++ encStr kv.2

/-- Serialize the header mapping: its length, then each pair. -/
def encHeaders (l : List (Str × Str)) : List Nat :=
  encodeNat l.length ++ (l.map encHeader).flatten

/-- Parse one serialized header pair. -/
def parseHeader (bs : List Nat) : Option ((Str × Str) × List Nat) :=
  match parseStr bs with
  | some (k, r) =>
    match parseStr r with
    | some (v, r2) => some ((k, v), r2)
    | none => none
  | none => none

/-- Parse `k` serialized header pairs. -/
def parseHeaderList : Nat → List Nat → Option (List (Str × Str) × List Nat)
  | 0, bs => some ([], bs)
  | k + 1, bs =>
    match parseHeader bs with
    | some (v, r) =>
      match parseHeaderList k r with
      | some (vs, r2) => some (v :: vs, r2)
      | none => none
    | none => none

/-- Parse the serialized header mapping. -/
def parseHeaders (bs : List Nat) : Option (List (Str × Str) × List Nat) :=
  match parseNat bs with
  | some (n, r) => parseHeaderList n r
  | none => none

/-- Model of `pickle.dumps` on an `EmailMessage`: protocol byte, the seven
fields in declaration order, stop byte. Always nonempty. -/
def pickle_dumps (e : EmailMessage) : List Nat :=
  128 :: (encStr e.subject ++ (encStr e.body ++ (encStr e.from_email ++
    (encStrList e.«to» ++ (encStrList e.bcc ++ (encStrList e.attachments ++
      (encHeaders e.extra_headers ++ [46])))))))

/-- Parse the seven fields of an `EmailMessage`. -/
def parseEmail (bs : List Nat) : Option (EmailMessage × List Nat) :=
  match parseStr bs with
  | none => none
  | some (subj, r1) =>
    match parseStr r1 with
    | none => none
    | some (body, r2) =>
      match parseStr r2 with
      | none => none
      | some (fr, r3) =>
        match parseStrList r3 with
        | none => none
        | some (tos, r4) =>
          match parseStrList r4 with
          | none => none
          | some (bcc, r5) =>
            match parseStrList r5 with
            | none => none
            | some (att, r6) =>
              match parseHeaders r6 with
              | none => none
              | some (hdrs, r7) => some (⟨subj, body, fr, tos, bcc, att, hdrs⟩, r7)

/-- Model of `pickle.loads`: empty input raises EOFError (CPython: "Ran out
of input"); input not framed as a pickled `EmailMessage` raises
UnpicklingError (CPython: "invalid load key" and friends). -/
def pickle_loads (bs : List Nat) : Except PyExc EmailMessage :=
  match bs with
  | [] => .error .eofError
  | b :: rest =>
    if b = 128 then
      match parseEmail rest with
      | some (e, [46]) => .ok e
      | _ => .error .unpicklingError
    else .error .unpicklingError

/-! ### Pickle round-trip lemmas -/

theorem natDigitsF_lt (fuel n : Nat) (hn : n ≤ fuel) :
    ∀ b ∈ natDigitsF fuel n, b < 255 := by
  induction fuel generalizing n with
  | zero => intro b hb; simp [natDigitsF] at hb
  | succ fuel ih =>
    intro b hb
    by_cases h : n = 0
    · simp [natDigitsF, h] at hb
    · simp only [natDigitsF, if_neg h, List.mem_cons] at hb
      rcases hb with hb | hb
      · subst hb; exact Nat.mod_lt _ (by omega)
      · refine ih (n / 255) ?_ b hb
        have hd : n / 255 < n := Nat.div_lt_self (Nat.pos_of_ne_zero h) (by norm_num)
        omega

theorem digitsVal_natDigitsF (fuel n : Nat) (hn : n ≤ fuel) :
    digitsVal (natDigitsF fuel n) = n := by
  induction fuel generalizing n with
  | zero =>
    have : n = 0 := by omega
    simp [natDigitsF, digitsVal, this]
  | succ fuel ih =>
    by_cases h : n = 0
    · simp [natDigitsF, digitsVal, h]
    · have hrec : n / 255 ≤ fuel := by
        have hd : n / 255 < n := Nat.div_lt_self (Nat.pos_of_ne_zero h) (by norm_num)
        omega
      simp only [natDigitsF, if_neg h, digitsVal, List.foldr_cons]
      have := ih (n / 255) hrec
      simp only [digitsVal] at this
      rw [this]
      exact Nat.mod_add_div n 255

theorem takeWhile_dropWhile_split (p : Nat → Bool) (l : List Nat) (x : Nat)
    (rest : List Nat) (hl : ∀ b ∈ l, p b = true) (hx : p x = false) :
    (l ++ x :: rest).takeWhile p = l ∧ (l ++ x :: rest).dropWhile p = x :: rest := by
  induction l with
  | nil => simp [List.takeWhile, List.dropWhile, hx]
  | cons a t ih =>
    have ha : p a = true := hl a (by simp)
    have ht : ∀ b ∈ t, p b = true := fun b hb => hl b (by simp [hb])
    obtain ⟨h1, h2⟩ := ih ht
    constructor
    · simp [List.takeWhile, ha, h1]
    · simp [List.dropWhile, ha, h2]

theorem parseNat_encodeNat (n : Nat) (rest : List Nat) :
    parseNat (encodeNat n ++ rest) = some (n, rest) := by
  have hsplit := takeWhile_dropWhile_split (fun b => decide (b < 255))
    (natDigitsF n n) 255 rest
    (fun b hb => by simpa using natDigitsF_lt n n (Nat.le_refl n) b hb)
    (by simp)
  have hassoc : encodeNat n ++ rest = natDigitsF n n ++ (255 :: rest) := by
    simp [encodeNat]
  rw [parseNat, hassoc, hsplit.2, hsplit.1,
    digitsVal_natDigitsF n n (Nat.le_refl n)]

theorem encodeNat_lt (n : Nat) : ∀ b ∈ encodeNat n, b < 256 := by
  intro b hb
  simp only [encodeNat, List.mem_append, List.mem_singleton] at hb
  rcases hb with hb | hb
  · exact Nat.lt_of_lt_of_le (natDigitsF_lt n n (Nat.le_refl n) b hb) (by omega)
  · omega

theorem parseNats_join (s : List Nat) (rest : List Nat) :
    parseNats s.length ((s.map encodeNat).flatten ++ rest) = some (s, rest) := by
  induction s generalizing rest with
  | nil => simp [parseNats]
  | cons a t ih =>
    simp only [List.map_cons, List.flatten_cons, List.length_cons, parseNats,
      List.append_assoc, parseNat_encodeNat, ih]

theorem parseStr_encStr (s : Str) (rest : List Nat) :
    parseStr (encStr s ++ rest) = some (s, rest) := by
  simp only [encStr, parseStr, List.append_assoc, parseNat_encodeNat]
  exact parseNats_join s rest

theorem encStr_lt (s : Str) : ∀ b ∈ encStr s, b < 256 := by
  intro b hb
  simp only [encStr, List.mem_append, List.mem_flatten, List.mem_map] at hb
  rcases hb with hb | ⟨l, ⟨c, _, hc⟩, hb⟩
  · exact encodeNat_lt _ b hb
  · exact encodeNat_lt c b (hc ▸ hb)

theorem parseStrs_join (s : List Str) (rest : List Nat) :
    parseStrs s.length ((s.map encStr).flatten ++ rest) = some (s, rest) := by
  induction s generalizing rest with
  | nil => simp [parseStrs]
  | cons a t ih =>
    simp only [List.map_cons, List.flatten_cons, List.length_cons, parseStrs,
      List.append_assoc, parseStr_encStr, ih]

theorem parseStrList_encStrList (l : List Str) (rest : List Nat) :
    parseStrList (encStrList l ++ rest) = some (l, rest) := by
  simp only [encStrList, parseStrList, List.append_assoc, parseNat_encodeNat]
  exact parseStrs_join l rest

theorem encStrList_lt (l : List Str) : ∀ b ∈ encStrList l, b < 256 := by
  intro b hb
  simp only [encStrList, List.mem_append, List.mem_flatten, List.mem_map] at hb
  rcases hb with hb | ⟨m, ⟨s, _, hs⟩, hb⟩
  · exact encodeNat_lt _ b hb
  · exact encStr_lt s b (hs ▸ hb)

theorem parseHeader_encHeader (kv : Str × Str) (rest : List Nat) :
    parseHeader (encHeader kv ++ rest) = some (kv, rest) := by
  simp [encHeader, parseHeader, List.append_assoc, parseStr_encStr]

theorem parseHeaderList_join (l : List (Str × Str)) (rest : List Nat) :
    parseHeaderList l.length ((l.map encHeader).flatten ++ rest) = some (l, rest) := by
  induction l generalizing rest with
  | nil => simp [parseHeaderList]
  | cons a t ih =>
    simp only [List.map_cons, List.flatten_cons, List.length_cons, parseHeaderList,
      List.append_assoc, parseHeader_encHeader, ih]

theorem parseHeaders_encHeaders (l : List (Str × Str)) (rest : List Nat) :
    parseHeaders (encHeaders l ++ rest) = some (l, rest) := by
  simp only [encHeaders, parseHeaders, List.append_assoc, parseNat_encodeNat]
  exact parseHeaderList_join l rest

theorem encHeaders_lt (l : List (Str × Str)) : ∀ b ∈ encHeaders l, b < 256 := by
  intro b hb
  simp only [encHeaders, List.mem_append, List.mem_flatten, List.mem_map] at hb
  rcases hb with hb | ⟨m, ⟨kv, _, hkv⟩, hb⟩
  · exact encodeNat_lt _ b hb
  · subst hkv
    simp only [encHeader, List.mem_append] at hb
    rcases hb with hb | hb
    · exact encStr_lt _ b hb
    · exact encStr_lt _ b hb

theorem pickle_loads_dumps (e : EmailMessage) :
    pickle_loads (pickle_dumps e) = .ok e := by
  have hparse : parseEmail (encStr e.subject ++ (encStr e.body ++
      (encStr e.from_email ++ (encStrList e.«to» ++ (encStrList e.bcc ++
        (encStrList e.attachments ++ (encHeaders e.extra_headers ++ [46]))))))) =
      some (e, [46]) := by
    simp only [parseEmail, parseStr_encStr, parseStrList_encStrList,
      parseHeaders_encHeaders]
  rw [pickle_dumps, pickle_loads]
  simp [hparse]

theorem pickle_dumps_lt (e : EmailMessage) : ∀ b ∈ pickle_dumps e, b < 256 := by
  intro b hb
  simp only [pickle_dumps, List.mem_cons, List.mem_append, List.mem_singleton] at hb
  rcases hb with rfl | hb | hb | hb | hb | hb | hb | hb | hb
  · norm_num
  · exact encStr_lt _ b hb
  · exact encStr_lt _ b hb
  · exact encStr_lt _ b hb
  · exact encStrList_lt _ b hb
  · exact encStrList_lt _ b hb
  · exact encStrList_lt _ b hb
  · exact encHeaders_lt _ b hb
  · rcases hb with rfl | hb
    · norm_num
    · cases hb


/-! ## Base64 model

`base64_encode` models `base64.encodebytes`: each 3-byte group becomes 4
characters of the RFC 4648 alphabet, a final 1- or 2-byte group is padded
with `=`, and a newline is emitted after every 76 output characters and after
the final partial line (`encodebytes` processes the input in 57-byte groups,
and 57 input bytes are exactly 76 output characters, so the two descriptions
coincide; empty input gives empty output). `base64_decode` models
`base64.decodebytes`/`binascii.a2b_base64`: characters outside the alphabet
(other than the pad `=`) are discarded, and if the retained characters do not
form whole 4-character groups the call raises `binascii.Error`. -/

/-- Decode one base64 alphabet character to its 6-bit value. -/
def b64dec (c : Nat) : Option Nat :=
  if 65 ≤ c ∧ c ≤ 90 then some (c - 65)
  else if 97 ≤ c ∧ c ≤ 122 then some (26 + (c - 97))
  else if 48 ≤ c ∧ c ≤ 57 then some (52 + (c - 48))
  else if c = 43 then some 62
  else if c = 47 then some 63
  else none

/-- Encode a 6-bit value as its base64 alphabet character. -/
def b64enc (v : Nat) : Nat :=
  if v < 26 then 65 + v
  else if v < 52 then 97 + (v - 26)
  else if v < 62 then 48 + (v - 52)
  else if v = 62 then 43
  else 47

/-- The 6-bit value of a character, 0 for characters outside the alphabet
(only ever applied to alphabet characters on the accepting path). -/
def b64val (c : Nat) : Nat := (b64dec c).getD 0

/-- Characters retained by the decoder: the alphabet and the pad `=` (61). -/
def keepB64 (c : Nat) : Bool := (b64dec c).isSome || c == 61

/-- The unpadded, unwrapped base64 character stream of a byte list. -/
def rawEncode : List Nat → List Nat
  | [] => []
  | [b0] => [b64enc (b0 / 4), b64enc (b0 % 4 * 16), 61, 61]
  | [b0, b1] => [b64enc (b0 / 4), b64enc (b0 % 4 * 16 + b1 / 16), b64enc (b1 % 16 * 4), 61]
  | b0 :: b1 :: b2 :: rest =>
    b64enc (b0 / 4) :: b64enc (b0 % 4 * 16 + b1 / 16) ::
      b64enc (b1 % 16 * 4 + b2 / 64) :: b64enc (b2 % 64) :: rawEncode rest

/-- Insert a newline (10) after every 76 characters and after the final
partial line; empty input gives empty output. -/
def insertNewlines (s : List Nat) : List Nat :=
  if h : s = [] then [] else (s.take 76 ++ [10]) ++ insertNewlines (s.drop 76)
termination_by s.length
decreasing_by
  simp only [List.length_drop]
  have hpos : 0 < s.length := List.length_pos.mpr h
  omega

/-- Model of `base64.encodebytes`. -/
def base64_encode (bs : List Nat) : List Nat := insertNewlines (rawEncode bs)

/-- Decode whole 4-character groups, honouring `=` padding in the final
group. -/
def decodeQuads : List Nat → List Nat
  | c0 :: c1 :: c2 :: c3 :: rest =>
    if c2 = 61 then
      [b64val c0 * 4 + b64val c1 / 16]
    else if c3 = 61 then
      [b64val c0 * 4 + b64val c1 / 16, b64val c1 % 16 * 16 + b64val c2 / 4]
    else
      (b64val c0 * 4 + b64val c1 / 16) :: (b64val c1 % 16 * 16 + b64val c2 / 4) ::
        (b64val c2 % 4 * 64 + b64val c3) :: decodeQuads rest
  | _ => []

/-- Model of `base64.decodebytes`: discard characters outside the alphabet,
then require whole 4-character groups, raising `binascii.Error` otherwise. -/
def base64_decode (s : List Nat) : Except PyExc (List Nat) :=
  if (s.filter keepB64).length % 4 = 0 then .ok (decodeQuads (s.filter keepB64))
  else .error .binasciiError

/-! ### Base64 lemmas -/

theorem b64val_b64enc : ∀ v, v < 64 → b64val (b64enc v) = v := by decide

theorem b64enc_ne_61 : ∀ v, v < 64 → b64enc v ≠ 61 := by decide

theorem b64enc_lt_128 : ∀ v, v < 64 → b64enc v < 128 := by decide

theorem keepB64_b64enc : ∀ v, v < 64 → keepB64 (b64enc v) = true := by decide

theorem keepB64_61 : keepB64 61 = true := by decide

theorem keepB64_10 : keepB64 10 = false := by decide

theorem rawEncode_cons3 (b0 b1 b2 : Nat) (rest : List Nat) :
    rawEncode (b0 :: b1 :: b2 :: rest) =
      b64enc (b0 / 4) :: b64enc (b0 % 4 * 16 + b1 / 16) ::
        b64enc (b1 % 16 * 4 + b2 / 64) :: b64enc (b2 % 64) :: rawEncode rest := rfl

theorem decodeQuads_cons (c0 c1 c2 c3 : Nat) (rest : List Nat) :
    decodeQuads (c0 :: c1 :: c2 :: c3 :: rest) =
      if c2 = 61 then [b64val c0 * 4 + b64val c1 / 16]
      else if c3 = 61 then
        [b64val c0 * 4 + b64val c1 / 16, b64val c1 % 16 * 16 + b64val c2 / 4]
      else
        (b64val c0 * 4 + b64val c1 / 16) :: (b64val c1 % 16 * 16 + b64val c2 / 4) ::
          (b64val c2 % 4 * 64 + b64val c3) :: decodeQuads rest := rfl

theorem rawEncode_kept : ∀ bs : List Nat, (∀ b ∈ bs, b < 256) →
    ∀ c ∈ rawEncode bs, keepB64 c = true
  | [], _ => by simp [rawEncode]
  | [b0], h => by
    have hb0 : b0 < 256 := h b0 (by simp)
    intro c hc
    simp only [rawEncode, List.mem_cons, List.not_mem_nil, or_false] at hc
    rcases hc with rfl | rfl | rfl | rfl
    · exact keepB64_b64enc _ (by omega)
    · exact keepB64_b64enc _ (by omega)
    · exact keepB64_61
    · exact keepB64_61
  | [b0, b1], h => by
    have hb0 : b0 < 256 := h b0 (by simp)
    have hb1 : b1 < 256 := h b1 (by simp)
    intro c hc
    simp only [rawEncode, List.mem_cons, List.not_mem_nil, or_false] at hc
    rcases hc with rfl | rfl | rfl | rfl
    · exact keepB64_b64enc _ (by omega)
    · exact keepB64_b64enc _ (by omega)
    · exact keepB64_b64enc _ (by omega)
    · exact keepB64_61
  | b0 :: b1 :: b2 :: rest, h => by
    have hb0 : b0 < 256 := h b0 (by simp)
    have hb1 : b1 < 256 := h b1 (by simp)
    have hb2 : b2 < 256 := h b2 (by simp)
    intro c hc
    rw [rawEncode_cons3] at hc
    simp only [List.mem_cons] at hc
    rcases hc with rfl | rfl | rfl | rfl | hc
    · exact keepB64_b64enc _ (by omega)
    · exact keepB64_b64enc _ (by omega)
    · exact keepB64_b64enc _ (by omega)
    · exact keepB64_b64enc _ (by omega)
    · exact rawEncode_kept rest (fun b hb => h b (by simp [hb])) c hc

theorem rawEncode_length_mod : ∀ bs : List Nat, (rawEncode bs).length % 4 = 0
  | [] => by simp [rawEncode]
  | [b0] => by simp [rawEncode]
  | [b0, b1] => by simp [rawEncode]
  | b0 :: b1 :: b2 :: rest => by
    have ih := rawEncode_length_mod rest
    rw [rawEncode_cons3]
    simp only [List.length_cons]
    omega

theorem rawEncode_lt_128 : ∀ bs : List Nat, (∀ b ∈ bs, b < 256) →
    ∀ c ∈ rawEncode bs, c < 128
  | [], _ => by simp [rawEncode]
  | [b0], h => by
    have hb0 : b0 < 256 := h b0 (by simp)
    intro c hc
    simp only [rawEncode, List.mem_cons, List.not_mem_nil, or_false] at hc
    rcases hc with rfl | rfl | rfl | rfl
    · exact b64enc_lt_128 _ (by omega)
    · exact b64enc_lt_128 _ (by omega)
    · omega
    · omega
  | [b0, b1], h => by
    have hb0 : b0 < 256 := h b0 (by simp)
    have hb1 : b1 < 256 := h b1 (by simp)
    intro c hc
    simp only [rawEncode, List.mem_cons, List.not_mem_nil, or_false] at hc
    rcases hc with rfl | rfl | rfl | rfl
    · exact b64enc_lt_128 _ (by omega)
    · exact b64enc_lt_128 _ (by omega)
    · exact b64enc_lt_128 _ (by omega)
    · omega
  | b0 :: b1 :: b2 :: rest, h => by
    have hb0 : b0 < 256 := h b0 (by simp)
    have hb1 : b1 < 256 := h b1 (by simp)
    have hb2 : b2 < 256 := h b2 (by simp)
    intro c hc
    rw [rawEncode_cons3] at hc
    simp only [List.mem_cons] at hc
    rcases hc with rfl | rfl | rfl | rfl | hc
    · exact b64enc_lt_128 _ (by omega)
    · exact b64enc_lt_128 _ (by omega)
    · exact b64enc_lt_128 _ (by omega)
    · exact b64enc_lt_128 _ (by omega)
    · exact rawEncode_lt_128 rest (fun b hb => h b (by simp [hb])) c hc

theorem decodeQuads_rawEncode : ∀ bs : List Nat, (∀ b ∈ bs, b < 256) →
    decodeQuads (rawEncode bs) = bs
  | [], _ => rfl
  | [b0], h => by
    have hb0 : b0 < 256 := h b0 (by simp)
    rw [show rawEncode [b0] = [b64enc (b0 / 4), b64enc (b0 % 4 * 16), 61, 61] from rfl,
      decodeQuads_cons, if_pos rfl, b64val_b64enc _ (by omega),
      b64val_b64enc _ (by omega)]
    have h1 : b0 / 4 * 4 + b0 % 4 * 16 / 16 = b0 := by omega
    rw [h1]
  | [b0, b1], h => by
    have hb0 : b0 < 256 := h b0 (by simp)
    have hb1 : b1 < 256 := h b1 (by simp)
    rw [show rawEncode [b0, b1] = [b64enc (b0 / 4), b64enc (b0 % 4 * 16 + b1 / 16),
        b64enc (b1 % 16 * 4), 61] from rfl,
      decodeQuads_cons, if_neg (b64enc_ne_61 _ (by omega)), if_pos rfl,
      b64val_b64enc _ (by omega), b64val_b64enc _ (by omega),
      b64val_b64enc _ (by omega)]
    have h1 : b0 / 4 * 4 + (b0 % 4 * 16 + b1 / 16) / 16 = b0 := by omega
    have h2 : (b0 % 4 * 16 + b1 / 16) % 16 * 16 + b1 % 16 * 4 / 4 = b1 := by omega
    rw [h1, h2]
  | b0 :: b1 :: b2 :: rest, h => by
    have hb0 : b0 < 256 := h b0 (by simp)
    have hb1 : b1 < 256 := h b1 (by simp)
    have hb2 : b2 < 256 := h b2 (by simp)
    have ih := decodeQuads_rawEncode rest (fun b hb => h b (by simp [hb]))
    rw [rawEncode_cons3, decodeQuads_cons, if_neg (b64enc_ne_61 _ (by omega)),
      if_neg (b64enc_ne_61 _ (by omega)), b64val_b64enc _ (by omega),
      b64val_b64enc _ (by omega), b64val_b64enc _ (by omega),
      b64val_b64enc _ (by omega), ih]
    have h1 : b0 / 4 * 4 + (b0 % 4 * 16 + b1 / 16) / 16 = b0 := by omega
    have h2 : (b0 % 4 * 16 + b1 / 16) % 16 * 16 + (b1 % 16 * 4 + b2 / 64) / 4 = b1 := by
      omega
    have h3 : (b1 % 16 * 4 + b2 / 64) % 4 * 64 + b2 % 64 = b2 := by omega
    rw [h1, h2, h3]


theorem filter_insertNewlines : ∀ s : List Nat, (∀ c ∈ s, keepB64 c = true) →
    (insertNewlines s).filter keepB64 = s
  | s, h => by
    by_cases hs : s = []
    · subst hs; simp [insertNewlines]
    · rw [insertNewlines, dif_neg hs]
      have h76 : ∀ c ∈ s.drop 76, keepB64 c = true :=
        fun c hc => h c (List.drop_subset _ _ hc)
      have ih := filter_insertNewlines (s.drop 76) h76
      rw [List.filter_append, List.filter_append, ih]
      have htake : (s.take 76).filter keepB64 = s.take 76 :=
        List.filter_eq_self.mpr (fun c hc => h c (List.take_subset _ _ hc))
      rw [htake]
      simp only [List.filter_cons, keepB64_10, List.filter_nil]
      simp only [Bool.false_eq_true, if_false, List.append_nil]
      exact List.take_append_drop 76 s
termination_by s => s.length
decreasing_by
  simp only [List.length_drop]
  have hpos : 0 < s.length := List.length_pos.mpr hs
  omega

theorem mem_insertNewlines : ∀ s : List Nat, ∀ c ∈ insertNewlines s, c ∈ s ∨ c = 10
  | s, c => by
    intro hc
    by_cases hs : s = []
    · subst hs; simp [insertNewlines] at hc
    · rw [insertNewlines, dif_neg hs] at hc
      simp only [List.mem_append, List.mem_singleton] at hc
      rcases hc with (hc | rfl) | hc
      · exact Or.inl (List.take_subset _ _ hc)
      · exact Or.inr rfl
      · rcases mem_insertNewlines (s.drop 76) c hc with hc2 | rfl
        · exact Or.inl (List.drop_subset _ _ hc2)
        · exact Or.inr rfl
termination_by s => s.length
decreasing_by
  simp only [List.length_drop]
  have hpos : 0 < s.length := List.length_pos.mpr hs
  omega

theorem base64_decode_encode (bs : List Nat) (h : ∀ b ∈ bs, b < 256) :
    base64_decode (base64_encode bs) = .ok bs := by
  rw [base64_decode, base64_encode, filter_insertNewlines _ (rawEncode_kept bs h),
    if_pos (rawEncode_length_mod bs), decodeQuads_rawEncode bs h]

theorem base64_encode_lt_128 (bs : List Nat) (h : ∀ b ∈ bs, b < 256) :
    ∀ c ∈ base64_encode bs, c < 128 := by
  intro c hc
  rcases mem_insertNewlines (rawEncode bs) c hc with hc2 | rfl
  · exact rawEncode_lt_128 bs h c hc2
  · omega

theorem base64_encode_cons_ne_nil (b0 : Nat) (t : List Nat) :
    base64_encode (b0 :: t) ≠ [] := by
  have hraw : rawEncode (b0 :: t) ≠ [] := by
    cases t with
    | nil => simp [rawEncode]
    | cons b1 t2 =>
      cases t2 with
      | nil => simp [rawEncode]
      | cons b2 t3 => simp [rawEncode]
  rw [base64_encode, insertNewlines, dif_neg hraw]
  simp

/-! ## The payload codec of the module (models.py lines 95-119) -/

/-- `email_to_db(email)`: `base64_encode(pickle.dumps(email)).decode("ascii")`.
The trailing ascii decode is the identity in this embedding (bytes and text
are both codepoint lists and base64 output is ASCII). -/
def email_to_db (email : EmailMessage) : Str := base64_encode (pickle_dumps email)

/-- The exception tuple of the first `except` clause of `db_to_email`:
`(TypeError, pickle.UnpicklingError, base64.binascii.Error, AttributeError)`. -/
def caughtPrimary (c : PyExc) : Bool :=
  match c with
  | .typeError | .unpicklingError | .binasciiError | .attributeError => true
  | _ => false

/-- The exception tuple of the second `except` clause of `db_to_email`:
`(TypeError, pickle.UnpicklingError, AttributeError)`. -/
def caughtLegacy (c : PyExc) : Bool :=
  match c with
  | .typeError | .unpicklingError | .attributeError => true
  | _ => false

/-- The legacy fallback of `db_to_email`: `pickle.loads(data)` directly on
the stored text (the previous storage format), catching the second exception
tuple and resolving to `None` when it also fails; any other exception class
propagates. -/
def legacyFallback (s : Str) : Except PyExc (Option EmailMessage) :=
  match pickle_loads s with
  | .ok e => .ok (some e)
  | .error c => if caughtLegacy c then .ok none else .error c

/-- `db_to_email(data)` (models.py lines 103-119). The `none` input case
models `data = None` (a null column): `None == ""` is false, `None.encode`
raises AttributeError which the bare `except AttributeError: pass` swallows,
`base64_decode(None)` raises TypeError (caught by the first tuple), and the
fallback `pickle.loads(None)` raises TypeError (caught by the second tuple),
so the call resolves to `None`. For text input: the empty string maps to
`None`; `data.encode("ascii")` raises UnicodeEncodeError (caught nowhere) on
non-ASCII text; then `pickle.loads(base64_decode(data))` is tried, with any
exception in the first tuple diverting to the legacy fallback and any other
exception class — e.g. the EOFError that `pickle.loads` raises on the empty
byte string — propagating to the caller. -/
def db_to_email : Option Str → Except PyExc (Option EmailMessage)
  | none => .ok none
  | some s =>
    if s = [] then .ok none
    else if s.all (fun c => decide (c < 128)) then
      match base64_decode s with
      | .ok bytes =>
        match pickle_loads bytes with
        | .ok e => .ok (some e)
        | .error c => if caughtPrimary c then legacyFallback s else .error c
      | .error c => if caughtPrimary c then legacyFallback s else .error c
    else .error .unicodeEncodeError

/-- The codec round-trips: decoding a freshly encoded payload yields the
email back (and raises nothing). -/
theorem db_to_email_email_to_db (e : EmailMessage) :
    db_to_email (some (email_to_db e)) = .ok (some e) := by
  have hlt := pickle_dumps_lt e
  have hb64 : base64_decode (base64_encode (pickle_dumps e)) = .ok (pickle_dumps e) :=
    base64_decode_encode _ hlt
  have hne : base64_encode (pickle_dumps e) ≠ [] := by
    rw [pickle_dumps]
    exact base64_encode_cons_ne_nil _ _
  have hascii : (base64_encode (pickle_dumps e)).all (fun c => decide (c < 128)) = true := by
    rw [List.all_eq_true]
    intro c hc
    simpa using base64_encode_lt_128 _ hlt c hc
  rw [email_to_db]
  simp only [db_to_email, if_neg hne, if_pos hascii, hb64, pickle_loads_dumps]

/-! ## The data model and queue operations (models.py)

Timestamps are modelled as integers (`when_added`, `when_attempted`, the
current time `nowT` and the retention window `days` in the same day unit, so
that `now - timedelta(days=days)` is `nowT - days`). A Django table is a list
of row records; `filter(...)` is `List.filter`, a set-based
`update(...)`/`delete()` returns the matched-row count together with the new
table contents. -/

/-- `PRIORITY_HIGH` (models.py line 12). -/
def PRIORITY_HIGH : Nat := 1

/-- `PRIORITY_MEDIUM` (models.py line 13). -/
def PRIORITY_MEDIUM : Nat := 2

/-- `PRIORITY_LOW` (models.py line 14). -/
def PRIORITY_LOW : Nat := 3

/-- `PRIORITY_DEFERRED` (models.py line 15). -/
def PRIORITY_DEFERRED : Nat := 4

/-- `RESULT_SUCCESS = "1"` (models.py line 235). -/
def RESULT_SUCCESS : Str := [49]

/-- `RESULT_DONT_SEND = "2"` (models.py line 236). -/
def RESULT_DONT_SEND : Str := [50]

/-- `RESULT_FAILURE = "3"` (models.py line 237). -/
def RESULT_FAILURE : Str := [51]

/-- A row of the `Message` table: the pickled payload text, the enqueue
timestamp, the priority tier and the retry counter. `priority` is an
`Option` because a Django model instance holds exactly the value passed to
its constructor — `Message(priority=None)` stores `None`, the field default
`PRIORITY_MEDIUM` applies only when the keyword is absent — while saved rows
hold one of the four tiers. -/
structure MessageRec where
  message_data : Str
  when_added : Int
  priority : Option Nat
  retry_count : Int
deriving DecidableEq

/-- A row of the `MessageLog` table: the snapshot fields copied from the
message (`message_data` nullable, `message_id` nullable, `when_added`,
`priority`) and the attempt fields (`when_attempted`, `result`,
`log_message`). -/
structure MessageLogRec where
  message_data : Option Str
  message_id : Option Str
  when_added : Int
  priority : Option Nat
  when_attempted : Int
  result : Str
  log_message : Str
deriving DecidableEq

/-- The row predicate of `MessageManager.retry_deferred`: `self.deferred()`
is `filter(priority=PRIORITY_DEFERRED)`, and when
`settings.MAILER_EMAIL_MAX_RETRIES` is configured (not `None`) the queryset
is further filtered by `retry_count__lt=<max>`. -/
def retry_pred (maxRetries : Option Int) : MessageRec → Bool :=
  match maxRetries with
  | none => fun m => m.priority == some PRIORITY_DEFERRED
  | some mx => fun m => m.priority == some PRIORITY_DEFERRED && decide (m.retry_count < mx)

/-- `MessageManager.retry_deferred(new_priority=PRIORITY_MEDIUM)` (models.py
lines 78-82): one set-based
`update(priority=new_priority, retry_count=F(retry_count) + 1)` over the
filtered queryset; `update` returns the number of matched rows. -/
def retry_deferred (maxRetries : Option Int) (new_priority : Nat)
    (db : List MessageRec) : Nat × List MessageRec :=
  (db.countP (retry_pred maxRetries),
   db.map fun m =>
     if retry_pred maxRetries m then
       { m with priority := some new_priority, retry_count := m.retry_count + 1 }
     else m)

/-- `MessageManager.purge_deferred()` (models.py lines 84-88): take the
deferred queryset, `count()` it, `delete()` it, return the count. -/
def purge_deferred (db : List MessageRec) : Nat × List MessageRec :=
  ((db.filter fun m => m.priority == some PRIORITY_DEFERRED).length,
   db.filter fun m => !(m.priority == some PRIORITY_DEFERRED))

/-- `DontSendEntryManager.has_address(address)` (models.py lines 215-220):
`filter(to_address__iexact=address).exists()` over the stored suppression
addresses. -/
def has_address (entries : List Str) (address : Str) : Bool :=
  entries.any fun a => lowerStr a == lowerStr address

/-- `filter_recipient_list(lst)` (models.py lines 180-189): `None` passes
through; otherwise the loop appends exactly the addresses not on the
suppression list, in order (the skipped entries are only logged). -/
def filter_recipient_list (entries : List Str) :
    Option (List Str) → Option (List Str)
  | none => none
  | some lst => some (lst.filter fun e => !has_address entries e)

/-- The Django `EmailMessage` constructor as called by `make_message`:
`self.to = list(to) if to else []` (likewise `bcc`, `attachments`),
`self.extra_headers = headers or {}`, and
`self.from_email = from_email or settings.DEFAULT_FROM_EMAIL` (so both
`None` and the empty string fall back to the configured default sender). -/
def EmailMessageInit (defaultFrom : Str) (subject body : Str)
    (from_email : Option Str) (tos bcc attachments : Option (List Str))
    (headers : Option (List (Str × Str))) : EmailMessage :=
  { subject := subject
    body := body
    from_email :=
      match from_email with
      | none => defaultFrom
      | some f => if f = [] then defaultFrom else f
    «to» := tos.getD []
    bcc := bcc.getD []
    attachments := attachments.getD []
    extra_headers := headers.getD [] }

/-- The Django model constructor call `Message(priority=priority)`: the
`priority` keyword is always present, so its value is stored as passed (even
`None`); the remaining fields take their declared defaults — empty text for
the `TextField`, the current time for `when_added`, `0` for `retry_count`. -/
def MessageInit (nowT : Int) (priority : Option Nat) : MessageRec :=
  { message_data := [], when_added := nowT, priority := priority, retry_count := 0 }

/-- `make_message(...)` (models.py lines 192-211): filter `to` and `bcc`
through the suppression list, build the `EmailMessage`, build the unsaved
`Message(priority=priority)` and assign its `email` property, which stores
`email_to_db(core_msg)` into `message_data`. Nothing is saved. -/
def make_message (entries : List Str) (defaultFrom : Str) (nowT : Int)
    (subject body : Str) (from_email : Option Str) (tos bcc : Option (List Str))
    (attachments : Option (List Str)) (headers : Option (List (Str × Str)))
    (priority : Option Nat) : MessageRec :=
  let tos2 := filter_recipient_list entries tos
  let bcc2 := filter_recipient_list entries bcc
  let core_msg := EmailMessageInit defaultFrom subject body from_email tos2 bcc2
    attachments headers
  let db_msg := MessageInit nowT priority
  { db_msg with message_data := email_to_db core_msg }

/-- The codepoints of the lowercase header name, `message-id`. -/
def messageIdLower : Str := [109, 101, 115, 115, 97, 103, 101, 45, 105, 100]

/-- The header scan of `get_message_id`: the first key whose lowercasing is
`message-id` wins. -/
def findMessageId : List (Str × Str) → Option Str
  | [] => none
  | kv :: rest => if lowerStr kv.1 == messageIdLower then some kv.2 else findMessageId rest

/-- `get_message_id(msg)` (models.py lines 39-44): scan `msg.extra_headers`
for a key equal to `message-id` case-insensitively; return its value, or
`None` when no header matches (the loop falls through). -/
def get_message_id (msg : EmailMessage) : Option Str :=
  findMessageId msg.extra_headers

/-- `MessageLogManager.log(message, result_code, log_message="")` (models.py
lines 248-263). `log_message_data` is
`getattr(settings, "MAILER_EMAIL_LOG_MESSAGE_DATA", True)`; when false the
stored payload is `None`. `get_message_id(message.email)` decodes the
payload: a propagated decode exception propagates out of `log`, and a `None`
email raises AttributeError when `get_message_id` reads `.extra_headers`, so
no row is created in either case. `when_attempted` takes its default, the
current time. -/
def log (log_message_data : Bool) (nowT : Int) (message : MessageRec)
    (result_code : Str) (log_message : Str) : Except PyExc MessageLogRec :=
  match db_to_email (some message.message_data) with
  | .error c => .error c
  | .ok none => .error .attributeError
  | .ok (some e) =>
    .ok { message_data := if log_message_data then some message.message_data else none
          message_id := get_message_id e
          when_added := message.when_added
          priority := message.priority
          when_attempted := nowT
          result := result_code
          log_message := log_message }

/-- `MessageLogManager.purge_old_entries(days, result_codes=None)`
(models.py lines 265-273): default the result codes to `[RESULT_SUCCESS]`,
filter by `when_attempted__lt=now - timedelta(days)` and
`result__in=result_codes`, `count()`, `delete()`, return the count. -/
def purge_old_entries (nowT days : Int) (result_codes : Option (List Str))
    (db : List MessageLogRec) : Nat × List MessageLogRec :=
  let codes := match result_codes with
    | none => [RESULT_SUCCESS]
    | some cs => cs
  let matchRow : MessageLogRec → Bool := fun entry =>
    decide (entry.when_attempted < nowT - days) && codes.contains entry.result
  ((db.filter matchRow).length, db.filter fun entry => !matchRow entry)

/-- The `Message.to_addresses` property (models.py lines 163-169): decode
the payload; a non-`None` email yields its `to` list, a `None` email yields
the empty list. -/
def MessageRec.to_addresses (m : MessageRec) : Except PyExc (List Str) :=
  match db_to_email (some m.message_data) with
  | .ok (some e) => .ok e.«to»
  | .ok none => .ok []
  | .error c => .error c

/-- The `Message.subject` property (models.py lines 171-177): decode the
payload; a non-`None` email yields its subject, a `None` email yields the
empty string. -/
def MessageRec.subject (m : MessageRec) : Except PyExc Str :=
  match db_to_email (some m.message_data) with
  | .ok (some e) => .ok e.subject
  | .ok none => .ok []
  | .error c => .error c

/-- The `MessageLog.to_addresses` property (models.py lines 313-319): decode
the (nullable) payload; a non-`None` email yields its `to` list, a `None`
email yields `None`. -/
def MessageLogRec.to_addresses (l : MessageLogRec) : Except PyExc (Option (List Str)) :=
  match db_to_email l.message_data with
  | .ok (some e) => .ok (some e.«to»)
  | .ok none => .ok none
  | .error c => .error c

/-- The `MessageLog.subject` property (models.py lines 321-327): decode the
(nullable) payload; a non-`None` email yields its subject, a `None` email
yields `None`. -/
def MessageLogRec.subject (l : MessageLogRec) : Except PyExc (Option Str) :=
  match db_to_email l.message_data with
  | .ok (some e) => .ok (some e.subject)
  | .ok none => .ok none
  | .error c => .error c

/-! ## Shared helper lemmas for the claim theorems -/

/-- A filter and its complement partition the length of a list. -/
theorem length_filter_add_length_filter_not {α : Type} (q : α → Bool) :
    ∀ l : List α, (l.filter q).length + (l.filter fun a => !q a).length = l.length
  | [] => rfl
  | a :: t => by
    have ih := length_filter_add_length_filter_not q t
    by_cases h : q a = true <;>
      simp only [List.filter_cons, h, Bool.not_true, Bool.not_false, if_true, if_false,
        Bool.true_eq_false, Bool.false_eq_true, List.length_cons] <;>
      omega

/-- `findMessageId` is the value of the first header whose lowercased name is
`message-id`. -/
theorem findMessageId_eq_find : ∀ l : List (Str × Str),
    findMessageId l = (l.find? fun kv => lowerStr kv.1 == messageIdLower).map Prod.snd
  | [] => rfl
  | kv :: rest => by
    have ih := findMessageId_eq_find rest
    cases hk : (lowerStr kv.1 == messageIdLower) with
    | true => simp [findMessageId, List.find?_cons, hk]
    | false => simp [findMessageId, List.find?_cons, hk, ih]

/-! ## The claim theorems -/

/-- C1: for every queue state and every configured maximum retry count (or
none), `retry_deferred(new_priority)` matches exactly the rows with
priority = deferred whose retry count is below the maximum (all deferred rows
when no maximum is configured), returns the number of matched rows, and maps
each matched row to the same row with priority = new_priority (the argument
defaults to medium in the source) and retry_count incremented by one, leaving
every other row — including deferred rows at or above the maximum —
unchanged, with the queue length preserved. -/
theorem retry_deferred_spec (maxRetries : Option Int) (p : Nat) (db : List MessageRec) :
    (retry_deferred maxRetries p db).1 =
      db.countP (fun m => m.priority == some PRIORITY_DEFERRED &&
        maxRetries.all fun mx => decide (m.retry_count < mx)) ∧
    (retry_deferred maxRetries p db).2 =
      db.map (fun m =>
        if m.priority == some PRIORITY_DEFERRED &&
            maxRetries.all (fun mx => decide (m.retry_count < mx)) then
          { m with priority := some p, retry_count := m.retry_count + 1 }
        else m) ∧
    (retry_deferred maxRetries p db).2.length = db.length := by
  have hpred : ∀ m, retry_pred maxRetries m =
      (m.priority == some PRIORITY_DEFERRED &&
        maxRetries.all fun mx => decide (m.retry_count < mx)) := by
    intro m
    cases maxRetries with
    | none => simp [retry_pred, Option.all]
    | some mx => simp [retry_pred, Option.all]
  refine ⟨?_, ?_, ?_⟩
  · exact List.countP_congr fun m _ => by rw [hpred m]
  · exact List.map_congr_left fun m _ => by rw [hpred m]
  · simp [retry_deferred]

/-- C2: `purge_deferred()` deletes exactly the rows with priority = deferred
(regardless of retry count), returns their number, and keeps every row at any
other priority unchanged and in order; the count plus the surviving rows make
up the whole queue. -/
theorem purge_deferred_spec (db : List MessageRec) :
    (purge_deferred db).1 = db.countP (fun m => m.priority == some PRIORITY_DEFERRED) ∧
    (purge_deferred db).2 = db.filter (fun m => !(m.priority == some PRIORITY_DEFERRED)) ∧
    (purge_deferred db).1 + (purge_deferred db).2.length = db.length := by
  refine ⟨by simp [purge_deferred, List.countP_eq_length_filter], rfl, ?_⟩
  exact length_filter_add_length_filter_not _ db

/-- C3: `filter_recipient_list(None)` is `None`; on a list it keeps, in
order and with duplicates, exactly the addresses for which no stored
suppression entry matches case-insensitively, and it is a total function. -/
theorem filter_recipient_list_spec (entries : List Str) (lst : List Str) :
    filter_recipient_list entries none = none ∧
    filter_recipient_list entries (some lst) =
      some (lst.filter fun e => !decide (∃ a ∈ entries, lowerStr a = lowerStr e)) := by
  refine ⟨rfl, ?_⟩
  simp only [filter_recipient_list, Option.some.injEq]
  apply List.filter_congr
  intro e _
  have : has_address entries e = decide (∃ a ∈ entries, lowerStr a = lowerStr e) := by
    rw [Bool.eq_iff_iff]
    simp [has_address, List.any_eq_true]
  rw [this]

/-- C4 counterexample: `make_message` called without a priority (the
`priority=None` default) yields a Message whose priority is null, not the
medium default, because `Message(priority=None)` stores the explicit `None`. -/
theorem make_message_priority_cex :
    (make_message [] [119] 0 [] [] none none none none none none).priority = none ∧
    (make_message [] [119] 0 [] [] none none none none none none).priority ≠
      some PRIORITY_MEDIUM := by
  refine ⟨rfl, ?_⟩
  intro hc
  rw [show (make_message [] [119] 0 [] [] none none none none none none).priority
      = none from rfl] at hc
  simp at hc

/-- C4 (amended): `make_message` filters `to` and `bcc` independently
through the suppression list, the filtered fields are encoded into the new
Message payload (decoding the payload recovers exactly the constructed
email), and the result has `when_added` = now, `retry_count` = 0, and carries
the `priority` argument exactly as passed — a null priority stays null, the
medium field default applying only when the keyword is absent, which
`make_message` never omits. Persistence is a separate `save()` call the
function never makes. -/
theorem make_message_spec (entries : List Str) (defaultFrom : Str) (nowT : Int)
    (subject body : Str) (from_email : Option Str) (tos bcc : Option (List Str))
    (attachments : Option (List Str)) (headers : Option (List (Str × Str)))
    (priority : Option Nat) :
    (make_message entries defaultFrom nowT subject body from_email tos bcc
      attachments headers priority).priority = priority ∧
    (make_message entries defaultFrom nowT subject body from_email tos bcc
      attachments headers priority).when_added = nowT ∧
    (make_message entries defaultFrom nowT subject body from_email tos bcc
      attachments headers priority).retry_count = 0 ∧
    db_to_email (some (make_message entries defaultFrom nowT subject body from_email
      tos bcc attachments headers priority).message_data) =
      .ok (some (EmailMessageInit defaultFrom subject body from_email
        (filter_recipient_list entries tos) (filter_recipient_list entries bcc)
        attachments headers)) :=
  ⟨rfl, rfl, rfl, db_to_email_email_to_db _⟩

/-- C5: the intended behaviour holds for the empty payload (`decode("")` is
null), but `db_to_email` is not exception-free: on a payload consisting of a
single newline, base64 decoding succeeds with the empty byte string and
`pickle.loads(b"")` raises EOFError, which is in neither caught exception
tuple, so the call propagates the error instead of returning null. -/
theorem db_to_email_newline_raises :
    db_to_email (some []) = .ok none ∧
    db_to_email (some [10]) = .error .eofError := by
  exact ⟨rfl, by decide⟩

/-- C6: the payload codec round-trips — decoding an encoded email yields
exactly that email, with no exception — and every character of the encoded
payload is ASCII (safe for a plain text column). -/
theorem codec_roundtrip_spec (e : EmailMessage) :
    db_to_email (some (email_to_db e)) = .ok (some e) ∧
    (email_to_db e).all (fun c => decide (c < 128)) = true := by
  refine ⟨db_to_email_email_to_db e, ?_⟩
  rw [List.all_eq_true]
  intro c hc
  rw [email_to_db] at hc
  simpa using base64_encode_lt_128 _ (pickle_dumps_lt e) c hc

/-- C7: when the message payload decodes to an email, `log` creates exactly
one entry whose `message_id` is the value of the first header whose name
matches `Message-Id` case-insensitively (null when no header matches), whose
`when_added` and `priority` are copied from the message, whose `result` is
the given code, and whose payload is the message payload when the
`MAILER_EMAIL_LOG_MESSAGE_DATA` flag is enabled (its default) and null when
it is disabled. -/
theorem log_spec (log_message_data : Bool) (nowT : Int) (m : MessageRec)
    (result_code log_message : Str) (e : EmailMessage)
    (h : db_to_email (some m.message_data) = .ok (some e)) :
    log log_message_data nowT m result_code log_message =
      .ok { message_data := if log_message_data then some m.message_data else none
            message_id := (e.extra_headers.find? fun kv =>
              lowerStr kv.1 == messageIdLower).map Prod.snd
            when_added := m.when_added
            priority := m.priority
            when_attempted := nowT
            result := result_code
            log_message := log_message } := by
  simp only [log, h, get_message_id, findMessageId_eq_find]

/-- The email of the C7 witness: empty fields except one header,
`Message-ID: <abc@x>` (mixed-case name). -/
def emailW7 : EmailMessage :=
  ⟨[], [], [], [], [], [],
    [([77, 101, 115, 115, 97, 103, 101, 45, 73, 68], [60, 97, 98, 99, 64, 120, 62])]⟩

/-- The message of the C7 witness: the encoded `emailW7` at high priority. -/
def messageW7 : MessageRec :=
  { message_data := email_to_db emailW7, when_added := 7,
    priority := some PRIORITY_HIGH, retry_count := 0 }

/-- C7 witness: logging the concrete message whose email carries the header
`Message-ID: <abc@x>` yields the log row with `message_id = "<abc@x>"`
despite the case difference, the snapshot fields copied, and the payload
copied because the flag is enabled. -/
theorem log_spec_witness :
    log true 3 messageW7 RESULT_SUCCESS [] =
      .ok { message_data := some (email_to_db emailW7)
            message_id := some [60, 97, 98, 99, 64, 120, 62]
            when_added := 7
            priority := some PRIORITY_HIGH
            when_attempted := 3
            result := RESULT_SUCCESS
            log_message := [] } := by
  rw [log_spec true 3 messageW7 RESULT_SUCCESS [] emailW7
    (db_to_email_email_to_db emailW7)]
  rfl

/-- C8: `purge_old_entries(days, result_codes)` deletes exactly the log rows
attempted before `now - days` whose result is among the given codes,
returning their number and keeping everything else in order; omitting
`result_codes` is the same call with `[RESULT_SUCCESS]`, so rows whose
result is not success — failures and dont-send entries of any age — are all
retained by the default purge. -/
theorem purge_old_entries_spec (nowT days : Int) (codes : List Str)
    (db : List MessageLogRec) :
    (purge_old_entries nowT days (some codes) db).1 =
      db.countP (fun entry => decide (entry.when_attempted < nowT - days) &&
        codes.contains entry.result) ∧
    (purge_old_entries nowT days (some codes) db).2 =
      db.filter (fun entry => !(decide (entry.when_attempted < nowT - days) &&
        codes.contains entry.result)) ∧
    purge_old_entries nowT days none db =
      purge_old_entries nowT days (some [RESULT_SUCCESS]) db ∧
    (purge_old_entries nowT days none db).2.countP
        (fun entry => !(entry.result == RESULT_SUCCESS)) =
      db.countP (fun entry => !(entry.result == RESULT_SUCCESS)) := by
  refine ⟨by simp [purge_old_entries, List.countP_eq_length_filter], rfl, rfl, ?_⟩
  simp only [purge_old_entries]
  rw [List.countP_filter]
  apply List.countP_congr
  intro entry _
  cases hres : (entry.result == RESULT_SUCCESS) with
  | true => simp [hres]
  | false =>
    have hne : entry.result ≠ RESULT_SUCCESS := by simpa using hres
    simp [hres, List.contains_cons]
    exact Or.inr hne

/-- C9 counterexample: a MessageLog row with a null payload decodes to null,
and its `to_addresses` and `subject` properties return null — not the empty
list and not the empty string. -/
theorem messagelog_null_accessors_cex :
    MessageLogRec.to_addresses ⟨none, none, 0, some 2, 0, [51], []⟩ = .ok none ∧
    MessageLogRec.to_addresses ⟨none, none, 0, some 2, 0, [51], []⟩ ≠ .ok (some []) ∧
    MessageLogRec.subject ⟨none, none, 0, some 2, 0, [51], []⟩ = .ok none ∧
    MessageLogRec.subject ⟨none, none, 0, some 2, 0, [51], []⟩ ≠ .ok (some []) ∧
    db_to_email (⟨none, none, 0, some 2, 0, [51], []⟩ : MessageLogRec).message_data =
      .ok none := by
  decide

/-- C9 (amended): when the stored payload decodes to null, the derived
accessors degrade without raising — `Message.to_addresses` to the empty list
and `Message.subject` to the empty string, while `MessageLog.to_addresses`
and `MessageLog.subject` degrade to null. -/
theorem accessors_degrade_spec (m : MessageRec) (l : MessageLogRec)
    (hm : db_to_email (some m.message_data) = .ok none)
    (hl : db_to_email l.message_data = .ok none) :
    m.to_addresses = .ok [] ∧ m.subject = .ok [] ∧
    l.to_addresses = .ok none ∧ l.subject = .ok none := by
  refine ⟨?_, ?_, ?_, ?_⟩
  · simp only [MessageRec.to_addresses, hm]
  · simp only [MessageRec.subject, hm]
  · simp only [MessageLogRec.to_addresses, hl]
  · simp only [MessageLogRec.subject, hl]

/-- C9 witness: a Message with the empty payload and a MessageLog with a
null payload both decode to null, and the four accessors degrade as the
amended claim states. -/
theorem accessors_degrade_witness :
    (⟨[], 0, some 2, 0⟩ : MessageRec).to_addresses = .ok [] ∧
    (⟨[], 0, some 2, 0⟩ : MessageRec).subject = .ok [] ∧
    (⟨none, none, 0, some 2, 0, [49], []⟩ : MessageLogRec).to_addresses = .ok none ∧
    (⟨none, none, 0, some 2, 0, [49], []⟩ : MessageLogRec).subject = .ok none := by
  have h := accessors_degrade_spec ⟨[], 0, some 2, 0⟩
    ⟨none, none, 0, some 2, 0, [49], []⟩ (by decide) (by decide)
  exact ⟨h.1, h.2.1, h.2.2.1, h.2.2.2⟩

/-- C10: `log` requires a decodable payload — when the stored payload
decodes to null the message-id extraction dereferences a null email, `log`
raises AttributeError and creates no row; when the payload decodes to an
email this error branch is unreachable and `log` returns a row. -/
theorem log_requires_decodable_spec (flag : Bool) (nowT : Int) (m : MessageRec)
    (code lm : Str) :
    (db_to_email (some m.message_data) = .ok none →
      log flag nowT m code lm = .error .attributeError) ∧
    (∀ e : EmailMessage, db_to_email (some m.message_data) = .ok (some e) →
      ∃ r, log flag nowT m code lm = .ok r) := by
  constructor
  · intro h
    simp only [log, h]
  · intro e h
    refine ⟨{ message_data := if flag then some m.message_data else none
              message_id := get_message_id e
              when_added := m.when_added
              priority := m.priority
              when_attempted := nowT
              result := code
              log_message := lm }, ?_⟩
    simp only [log, h]

/-- C10 witness: `log` on the message with the empty (undecodable) payload
raises AttributeError, and `log` on a message with a well-formed payload
returns a row. -/
theorem log_requires_decodable_witness :
    log true 0 ⟨[], 0, some 2, 0⟩ RESULT_FAILURE [] = .error .attributeError ∧
    ∃ r, log true 0 ⟨email_to_db ⟨[], [], [], [], [], [], []⟩, 1, some 2, 0⟩
      RESULT_SUCCESS [] = .ok r := by
  constructor
  · exact (log_requires_decodable_spec true 0 ⟨[], 0, some 2, 0⟩
      RESULT_FAILURE []).1 (by decide)
  · exact (log_requires_decodable_spec true 0
      ⟨email_to_db ⟨[], [], [], [], [], [], []⟩, 1, some 2, 0⟩ RESULT_SUCCESS []).2
      ⟨[], [], [], [], [], [], []⟩ (db_to_email_email_to_db _)

end Mailer
